import Mathlib

/-!
Verification of the frontend-model local-cache engine.

Shallow embedding of the repository's core: JavaScript values, a heap of
mutable entity objects addressed by natural numbers (reference identity is
address equality), the identity-indexed Repository
(src/src/factories/Repository.js), the in-place merge helper
`replaceObjectProperties` (src/src/helpers/replaceObjectProperties.js, plus
the variant shipped in the unnamed source part), the pending Queue
(src/src/factories/Queue.js), the scoped listener dispatch (the Listener
factory bundled with Repository.js), and the Model-level private API
(src/src/factories/Model.js).
-/

namespace FrontendModel

/-- JavaScript primitive values as they occur in entity fields. -/
inductive JsVal where
  | undefined : JsVal
  | boolV : Bool → JsVal
  | num : Int → JsVal
  | str : String → JsVal
deriving DecidableEq

/-- JavaScript truthiness: undefined, false, 0 and the empty string are falsy. -/
def truthy : JsVal → Bool
  | .undefined => false
  | .boolV b => b
  | .num n => decide (n ≠ 0)
  | .str s => decide (s ≠ "")

/-- Coercion of a value to a JavaScript property key, as used when a value
indexes the byId object. -/
def jsKey : JsVal → String
  | .undefined => "undefined"
  | .boolV b => cond b "true" "false"
  | .num n => toString n
  | .str s => s

/-- Loose equality as used by the listener filter. JavaScript coerces a
string operand to a number; for the canonical decimal strings used as
identity values this agrees with comparing decimal representations. -/
def looseEq : JsVal → JsVal → Bool
  | .undefined, .undefined => true
  | .boolV a, .boolV b => a == b
  | .num a, .num b => a == b
  | .str a, .str b => a == b
  | .num a, .str b => toString a == b
  | .str a, .num b => a == toString b
  | _, _ => false

/-- An entity object: an ordered association of field names to values. -/
abbrev Obj := List (String × JsVal)

/-- Reading a field; a missing field reads as undefined. -/
def lookupField (o : Obj) (k : String) : JsVal :=
  match o.find? (fun p => p.1 == k) with
  | some p => p.2
  | none => .undefined

/-- The heap of allocated entity objects; an address is an index. -/
abbrev Heap := List Obj

/-- Dereference an address (out-of-range reads as the empty object). -/
def heapGet (h : Heap) (a : Nat) : Obj := h.getD a []

/-- Overwrite the object at an address (out of range is a no-op). -/
def heapSet (h : Heap) (a : Nat) (o : Obj) : Heap := h.set a o

/-- The lodash partial-match predicate used by find: every field of the
pattern object must be present with an equal value on the target. -/
def objMatches (pattern target : Obj) : Bool :=
  pattern.all (fun p => lookupField target p.1 == p.2)

/-- The byId index: a JavaScript object keyed by coerced identity values,
holding entity references. -/
abbrev ByIdMap := List (String × Nat)

/-- Property read on the byId object. -/
def lookupKey (m : ByIdMap) (k : String) : Option Nat :=
  (m.find? (fun p => p.1 == k)).map (fun p => p.2)

/-- Property write on the byId object: overwrite an existing key in place,
otherwise append. -/
def setKey (m : ByIdMap) (k : String) (v : Nat) : ByIdMap :=
  if m.any (fun p => p.1 == k) then
    m.map (fun p => if p.1 == k then (k, v) else p)
  else
    m ++ [(k, v)]

/-- Property delete on the byId object. -/
def eraseKey (m : ByIdMap) (k : String) : ByIdMap :=
  m.filter (fun p => !(p.1 == k))

/-- replaceObjectProperties from src/src/helpers/replaceObjectProperties.js,
object branch, acting on the heap: first every key of the target object is
deleted, then the target is extended with the source's fields as they stand
after the deletion.  There is no same-reference guard in this copy, so when
target and source are the same object the deletion empties the source before
it is copied back. -/
def replaceObjectProperties (h : Heap) (obj newProperties : Nat) : Heap :=
  let h1 := heapSet h obj []
  heapSet h1 obj (heapGet h1 newProperties)

/-- The variant of replaceObjectProperties shipped in src/unnamed/part_001
(lines 35-59): a same-reference guard makes the call a no-op when target and
source coincide. -/
def replaceObjectPropertiesFixed (h : Heap) (obj newProperties : Nat) : Heap :=
  if obj = newProperties then h
  else
    let h1 := heapSet h obj []
    heapSet h1 obj (heapGet h1 newProperties)

/-- The array-clearing loop of replaceObjectProperties: lodash each iterates
indices 0 to length-1 with the length captured once, splicing out the element
at the running index of the shrinking array (splice past the end removes
nothing).  This is the loop exactly as written; it does not remove every
element. -/
def clearArray {α : Type} (l : List α) : List α :=
  (List.range l.length).foldl (fun acc i => acc.eraseIdx i) l

/-- replaceObjectProperties, array branch, from
src/src/helpers/replaceObjectProperties.js: run the clearing loop, then
push every element of the source when the source is an array (applying push
to a non-array source contributes no elements, modelled by none). -/
def replaceArrayProperties {α : Type} (obj : List α) (src : Option (List α)) : List α :=
  clearArray obj ++ (match src with | some l => l | none => [])

/-- Array branch of the variant in src/unnamed/part_001 lines 35-59: pop
until empty, then push the source's elements only when the source is an
array. -/
def replaceArrayPropertiesFixed {α : Type} (_obj : List α) (src : Option (List α)) : List α :=
  match src with | some l => l | none => []

/-! ## Repository (src/src/factories/Repository.js) -/

/-- The Repository state: the heap of entity objects, the ordered data
array of entity references, and the byId index. -/
structure RepoState where
  heap : Heap
  data : List Nat
  byId : ByIdMap
deriving DecidableEq

/-- An emitted event: its name, its payload entity, and the repository
state as an observer sees it at the moment the trigger runs. -/
structure Ev where
  name : String
  payload : Nat
  view : RepoState
deriving DecidableEq

/-- Model.id for an entity argument: read the configured identity field. -/
def repoId (idAttr : String) (h : Heap) (a : Nat) : JsVal :=
  lookupField (heapGet h a) idAttr

/-- The lodash find fallback over data used when the argument carries no
truthy identity. -/
def repoFind (h : Heap) (data : List Nat) (m : Nat) : Option Nat :=
  data.find? (fun a => objMatches (heapGet h m) (heapGet h a))

/-- Repository.get: index lookup when the identity is truthy, otherwise a
linear structural scan of data. -/
def repoGet (idAttr : String) (s : RepoState) (m : Nat) : Option Nat :=
  let id := repoId idAttr s.heap m
  if truthy id then lookupKey s.byId (jsKey id) else repoFind s.heap s.data m

/-- Repository.addOne: resolve the identity of the incoming entity, look up
an existing entity; merge in place when found, otherwise append; emit
change and then update or add (observers see the state before the byId
write); finally, when the incoming identity is truthy, write the byId
entry. -/
def addOne (idAttr : String) (s : RepoState) (m : Nat) : RepoState × List Ev :=
  let id := repoId idAttr s.heap m
  match repoGet idAttr s m with
  | some e =>
    let h2 := replaceObjectProperties s.heap e m
    let s1 : RepoState := ⟨h2, s.data, s.byId⟩
    let s2 : RepoState :=
      ⟨h2, s.data, if truthy id then setKey s.byId (jsKey id) e else s.byId⟩
    (s2, [⟨"change", e, s1⟩, ⟨"update", e, s1⟩])
  | none =>
    let s1 : RepoState := ⟨s.heap, s.data ++ [m], s.byId⟩
    let s2 : RepoState :=
      ⟨s.heap, s.data ++ [m], if truthy id then setKey s.byId (jsKey id) m else s.byId⟩
    (s2, [⟨"change", m, s1⟩, ⟨"add", m, s1⟩])

/-- Repository.removeOne: splice the entity out of data when present by
reference, delete the byId entry for its identity when truthy, then emit
change and remove unconditionally, and return the argument. -/
def removeOne (idAttr : String) (s : RepoState) (m : Nat) : RepoState × List Ev × Nat :=
  let id := repoId idAttr s.heap m
  let data2 := s.data.erase m
  let byId2 := if truthy id then eraseKey s.byId (jsKey id) else s.byId
  let s2 : RepoState := ⟨s.heap, data2, byId2⟩
  (s2, ([⟨"change", m, s2⟩, ⟨"remove", m, s2⟩], m))

/-- Repository.empty: pop entities off data one at a time, deleting the
byId entry of each popped entity whose identity is truthy.  An entity whose
identity field was stripped earlier leaves its stale byId entry behind. -/
def emptyRepo (idAttr : String) (s : RepoState) : RepoState :=
  ⟨s.heap, [],
    s.data.reverse.foldl
      (fun b a =>
        if truthy (repoId idAttr s.heap a) then eraseKey b (jsKey (repoId idAttr s.heap a)) else b)
      s.byId⟩

/-- A repository operation: adding a fresh object literal, re-adding or
removing an existing reference, removing a fresh object literal, or
emptying the store. -/
inductive ROp where
  | add (fields : Obj)
  | addRef (a : Nat)
  | remove (fields : Obj)
  | removeRef (a : Nat)
  | emptyOp
deriving DecidableEq

/-- Apply one operation: fresh arguments are allocated at the end of the
heap first, mirroring a caller passing a new object literal. -/
def applyOp (idAttr : String) (s : RepoState) : ROp → RepoState
  | .add f => (addOne idAttr ⟨s.heap ++ [f], s.data, s.byId⟩ s.heap.length).1
  | .addRef a => if a < s.heap.length then (addOne idAttr s a).1 else s
  | .remove f => (removeOne idAttr ⟨s.heap ++ [f], s.data, s.byId⟩ s.heap.length).1
  | .removeRef a => if a < s.heap.length then (removeOne idAttr s a).1 else s
  | .emptyOp => emptyRepo idAttr s

/-- Apply a sequence of repository operations. -/
def applyOps (idAttr : String) (s : RepoState) (ops : List ROp) : RepoState :=
  ops.foldl (applyOp idAttr) s

/-- The empty repository. -/
def initRepo : RepoState := ⟨[], [], []⟩

/-- The store invariant exactly as the specification states it: identity
uniqueness inside data, byId reference-identical to the identified entity,
no byId entries for identity-less entities, and no byId entries whose
identity is not present in data. -/
def SpecInv (idAttr : String) (s : RepoState) : Prop :=
  s.data.Pairwise (fun a b =>
    truthy (repoId idAttr s.heap a) = true →
    truthy (repoId idAttr s.heap b) = true →
    jsKey (repoId idAttr s.heap a) ≠ jsKey (repoId idAttr s.heap b)) ∧
  (∀ a ∈ s.data, truthy (repoId idAttr s.heap a) = true →
    lookupKey s.byId (jsKey (repoId idAttr s.heap a)) = some a) ∧
  (∀ p ∈ s.byId, p.2 ∈ s.data ∧ truthy (repoId idAttr s.heap p.2) = true ∧
    jsKey (repoId idAttr s.heap p.2) = p.1)

/-- Strengthened invariant used for the induction: additionally all data
references are distinct and valid and every stored entity carries a truthy
identity with pairwise-distinct keys. -/
def RepoInv (idAttr : String) (s : RepoState) : Prop :=
  s.data.Nodup ∧
  (∀ a ∈ s.data, a < s.heap.length) ∧
  (∀ a ∈ s.data, truthy (repoId idAttr s.heap a) = true) ∧
  s.data.Pairwise (fun a b =>
    jsKey (repoId idAttr s.heap a) ≠ jsKey (repoId idAttr s.heap b)) ∧
  (∀ a ∈ s.data, lookupKey s.byId (jsKey (repoId idAttr s.heap a)) = some a) ∧
  (∀ p ∈ s.byId, p.2 ∈ s.data ∧ jsKey (repoId idAttr s.heap p.2) = p.1)

instance listPairwiseDecidable {α : Type} (R : α → α → Prop) [DecidableRel R] :
    (l : List α) → Decidable (l.Pairwise R)
  | [] => .isTrue List.Pairwise.nil
  | x :: xs =>
    haveI := listPairwiseDecidable R xs
    decidable_of_iff ((∀ y ∈ xs, R x y) ∧ List.Pairwise R xs) List.pairwise_cons.symm

instance specInvDecidable (idAttr : String) (s : RepoState) : Decidable (SpecInv idAttr s) := by
  unfold SpecInv; infer_instance

instance repoInvDecidable (idAttr : String) (s : RepoState) : Decidable (RepoInv idAttr s) := by
  unfold RepoInv; infer_instance

/-- The restricted call discipline under which the invariant is provable:
added entities are fresh objects carrying a truthy identity, removed
entities are current members of data passed by reference, and empty is
unrestricted. -/
def goodOp (idAttr : String) (s : RepoState) : ROp → Prop
  | .add f => truthy (lookupField f idAttr) = true
  | .removeRef a => a ∈ s.data
  | .emptyOp => True
  | _ => False

instance goodOpDecidable (idAttr : String) (s : RepoState) :
    (op : ROp) → Decidable (goodOp idAttr s op)
  | .add f => by unfold goodOp; infer_instance
  | .addRef a => by unfold goodOp; infer_instance
  | .remove f => by unfold goodOp; infer_instance
  | .removeRef a => by unfold goodOp; infer_instance
  | .emptyOp => by unfold goodOp; infer_instance

/-- A sequence of operations each permitted in the state it runs in. -/
inductive GoodOps (idAttr : String) : RepoState → List ROp → Prop where
  | nil : ∀ {s}, GoodOps idAttr s []
  | cons : ∀ {s op ops}, goodOp idAttr s op →
      GoodOps idAttr (applyOp idAttr s op) ops → GoodOps idAttr s (op :: ops)

/-! ## Queue (src/src/factories/Queue.js) -/

/-- Queue.add for a single item: push only when not already present
(membership test by reference, via indexOf). -/
def queueAdd (q : List Nat) (x : Nat) : List Nat :=
  if x ∈ q then q else q ++ [x]

/-- Queue.add for an array argument: add each element in order. -/
def queueAddList (q : List Nat) (xs : List Nat) : List Nat :=
  xs.foldl queueAdd q

/-- Queue.remove for a single item: splice out the first occurrence found
by indexOf; absent items are a no-op. -/
def queueRemove (q : List Nat) (x : Nat) : List Nat :=
  q.erase x

/-- Queue.run's drain loop: repeatedly pop the last item and invoke the
task on it; the returned list is the sequence of items the task is invoked
on, in invocation order. -/
def queueDrain (q : List Nat) : List Nat :=
  if h : q = [] then []
  else q.getLast h :: queueDrain q.dropLast
termination_by q.length
decreasing_by
  simp [List.length_dropLast]
  exact List.length_pos.mpr h

/-- A queue operation, used to characterize the states reachable through
the queue's public interface. -/
inductive QOp where
  | qadd (x : Nat)
  | qremove (x : Nat)
  | qempty
  | qrun
deriving DecidableEq

/-- Apply one queue operation to the queue contents (empty pops everything,
run drains everything). -/
def applyQOp (q : List Nat) : QOp → List Nat
  | .qadd x => queueAdd q x
  | .qremove x => queueRemove q x
  | .qempty => []
  | .qrun => []

/-- The queue states reachable from a fresh queue through its interface. -/
def QReach (q : List Nat) : Prop :=
  ∃ ops : List QOp, ops.foldl applyQOp [] = q

/-! ## Listener (the Listener factory bundled in src/src/factories/Repository.js) -/

/-- A scoped listener registration: optional entity scope, optional event
scope, and a token identifying the callback. -/
structure Reg where
  model : Option Nat
  event : Option String
  cb : Nat
deriving DecidableEq

/-- The filter runModelListeners applies to a registration when the
triggered payload is an entity.  A registration with no model matches
unconditionally; otherwise the event must be unset or equal and the payload
must be reference-identical to the scope entity or carry a truthy identity
loosely equal to the scope entity's identity. -/
def listenerMatches (idAttr : String) (h : Heap) (event : String) (m : Nat) (l : Reg) : Bool :=
  match l.model with
  | none => true
  | some lm =>
    let changedId := repoId idAttr h m
    let listenerId := repoId idAttr h lm
    (match l.event with | none => true | some le => le == event) &&
      ((m == lm) || (truthy changedId && looseEq changedId listenerId))

/-- runModelListeners: the registrations whose callbacks are invoked for a
trigger, in registration order.  A payload that is not an entity only
reaches registrations with no model scope. -/
def runModelListeners (idAttr : String) (h : Heap) (listeners : List Reg)
    (event : String) (payload : Option Nat) : List Reg :=
  match payload with
  | some m => listeners.filter (listenerMatches idAttr h event m)
  | none =>
    listeners.filter (fun l =>
      l.model.isNone && (match l.event with | none => true | some le => event == le))

/-- The Listener factory's state: the event names for which an internal
emitter hook has been bound (lazily, by listenTo or on; a null event binds a
hook under the null key), and the scoped registrations. -/
structure ListenerState where
  internalListeners : List (Option String)
  listeners : List Reg
deriving DecidableEq

/-- listenTo: record the registration and bind the internal hook for its
event name when not yet bound. -/
def listenTo (st : ListenerState) (model : Option Nat) (event : Option String) (cb : Nat) :
    ListenerState :=
  { internalListeners :=
      if event ∈ st.internalListeners then st.internalListeners
      else st.internalListeners ++ [event],
    listeners := st.listeners ++ [⟨model, event, cb⟩] }

/-- trigger: the emitter fires the internal hook bound to exactly this event
name, if one exists, which re-dispatches through runModelListeners; with no
hook bound for the name, no scoped registration is reached. -/
def triggerScoped (idAttr : String) (h : Heap) (st : ListenerState)
    (event : String) (payload : Option Nat) : List Reg :=
  if some event ∈ st.internalListeners then
    runModelListeners idAttr h st.listeners event payload
  else []

/-! ## Model-level private API (src/src/factories/Model.js) -/

/-- The Model's state: local data mirror plus the two pending queues. -/
structure ModelState where
  heap : Heap
  data : List Nat
  byId : ByIdMap
  saveQ : List Nat
  destroyQ : List Nat
deriving DecidableEq

/-- privateApi.findModelInLocalData: byId lookup for a truthy identity,
structural scan otherwise. -/
def findModelInLocalData (idAttr : String) (s : ModelState) (m : Nat) : Option Nat :=
  let id := lookupField (heapGet s.heap m) idAttr
  if truthy id then lookupKey s.byId (jsKey id)
  else s.data.find? (fun a => objMatches (heapGet s.heap m) (heapGet s.heap a))

/-- privateApi.addModelToLocalData: push, then index into byId when the
identity is truthy (here the byId write precedes the triggers). -/
def addModelToLocalData (idAttr : String) (s : ModelState) (m : Nat) : ModelState :=
  let id := lookupField (heapGet s.heap m) idAttr
  let s1 := { s with data := s.data ++ [m] }
  if truthy id then { s1 with byId := setKey s1.byId (jsKey id) m } else s1

/-- privateApi.updateModelInLocalData: replace the existing entity's fields
in place unless the argument is the very same object; byId is not touched. -/
def updateModelInLocalData (s : ModelState) (e m : Nat) : ModelState :=
  if e = m then s else { s with heap := replaceObjectProperties s.heap e m }

/-- privateApi.removeModelFromLocalData: splice out by reference, and delete
the byId property for the identity whenever the identity field is defined
(note: defined, not truthy — an identity of 0 still deletes byId of key 0). -/
def removeModelFromLocalData (idAttr : String) (s : ModelState) (m : Nat) : ModelState :=
  let id := lookupField (heapGet s.heap m) idAttr
  let s1 := { s with data := s.data.erase m }
  if id = .undefined then s1 else { s1 with byId := eraseKey s1.byId (jsKey id) }

/-- privateApi.addModelsToLocalData: reconcile each entity (update in place
when found, append when not), then — when called from the public add — push
the caller-supplied argument objects themselves onto the save queue. -/
def addModelsToLocalData (idAttr : String) (s : ModelState) (ms : List Nat)
    (addToQueue : Bool) : ModelState :=
  let s1 := ms.foldl
    (fun acc m =>
      match findModelInLocalData idAttr acc m with
      | some e => updateModelInLocalData acc e m
      | none => addModelToLocalData idAttr acc m)
    s
  if addToQueue then { s1 with saveQ := queueAddList s1.saveQ ms } else s1

/-- privateApi.removeModelsFromLocalData: remove each entity that can be
found locally (not-found entities are skipped silently), then — when called
from the public remove — push every argument object onto the destroy queue,
found or not. -/
def removeModelsFromLocalData (idAttr : String) (s : ModelState) (ms : List Nat)
    (addToQueue : Bool) : ModelState :=
  let s1 := ms.foldl
    (fun acc m =>
      match findModelInLocalData idAttr acc m with
      | some e => removeModelFromLocalData idAttr acc e
      | none => acc)
    s
  if addToQueue then { s1 with destroyQ := queueAddList s1.destroyQ ms } else s1

/-- The request Model.fetch dispatches to the server layer. -/
inductive FetchReq where
  | findById (id : JsVal)
  | findAll
deriving DecidableEq

/-- Model.fetch with an optional entity argument: find-by-id only when an
identity is resolvable (truthy), otherwise find-all. -/
def modelFetch (idAttr : String) (h : Heap) (m : Option Nat) : FetchReq :=
  match m with
  | none => .findAll
  | some a =>
    let id := lookupField (heapGet h a) idAttr
    if truthy id then .findById id else .findAll

/-- What Model.destroy does with its argument. -/
inductive DestroyAct where
  | runQueue
  | serverDestroy (id : JsVal)
  | localRemove
deriving DecidableEq

/-- Model.destroy: with no argument, drain the destroy queue; with an
identified entity, dispatch a server destroy; with an identity-less entity,
remove it locally and resolve without any request. -/
def modelDestroy (idAttr : String) (s : ModelState) (m : Option Nat) :
    ModelState × DestroyAct :=
  match m with
  | none => (s, .runQueue)
  | some a =>
    let id := lookupField (heapGet s.heap a) idAttr
    if truthy id then (s, .serverDestroy id)
    else (removeModelFromLocalData idAttr s a, .localRemove)

/-- The synchronous part of Model.reset: empty both queues, clear byId
(full, via key enumeration) and clear data via replaceObjectProperties with
no source — which runs the splice-while-iterating loop on data. -/
def modelResetLocal (s : ModelState) : ModelState :=
  { s with saveQ := [], destroyQ := [],
           byId := [],
           data := replaceArrayProperties s.data none }

/-! ## Lemmas about the byId map operations -/

theorem lookupKey_cons (p : String × Nat) (m : ByIdMap) (k : String) :
    lookupKey (p :: m) k = if p.1 = k then some p.2 else lookupKey m k := by
  by_cases h : p.1 = k <;> simp [lookupKey, List.find?_cons, h]

theorem lookupKey_nil (k : String) : lookupKey [] k = none := rfl

theorem lookupKey_eq_none_iff (m : ByIdMap) (k : String) :
    lookupKey m k = none ↔ ∀ p ∈ m, p.1 ≠ k := by
  induction m with
  | nil => simp [lookupKey_nil]
  | cons p m ih =>
    rw [lookupKey_cons]
    by_cases h : p.1 = k <;> simp [h, ih]

theorem lookupKey_some_mem {m : ByIdMap} {k : String} {v : Nat}
    (h : lookupKey m k = some v) : (k, v) ∈ m := by
  induction m with
  | nil => simp [lookupKey_nil] at h
  | cons p m ih =>
    rw [lookupKey_cons] at h
    by_cases hp : p.1 = k
    · simp only [hp, if_true, Option.some.injEq] at h
      obtain ⟨p1, p2⟩ := p
      simp only at hp h
      subst hp h
      exact List.mem_cons_self _ _
    · simp only [hp, if_false] at h
      exact .tail _ (ih h)

theorem lookupKey_append_self (m : ByIdMap) (k : String) (v : Nat)
    (h : ∀ p ∈ m, p.1 ≠ k) : lookupKey (m ++ [(k, v)]) k = some v := by
  induction m with
  | nil => simp [lookupKey_cons]
  | cons p m ih =>
    rw [List.cons_append, lookupKey_cons]
    have hp : p.1 ≠ k := h p (List.mem_cons_self _ _)
    simp only [hp, if_false]
    exact ih (fun q hq => h q (List.mem_cons_of_mem _ hq))

theorem lookupKey_append_ne (m : ByIdMap) (k : String) (v : Nat) (k' : String)
    (h : k' ≠ k) : lookupKey (m ++ [(k, v)]) k' = lookupKey m k' := by
  induction m with
  | nil => simp [lookupKey_cons, lookupKey_nil, Ne.symm h]
  | cons p m ih =>
    rw [List.cons_append, lookupKey_cons, lookupKey_cons]
    by_cases hq : p.1 = k'
    · simp [hq]
    · simp only [hq, if_false]
      exact ih

theorem lookupKey_mapSet_self (m : ByIdMap) (k : String) (v : Nat)
    (h : m.any (fun p => p.1 == k) = true) :
    lookupKey (m.map (fun p => if p.1 == k then (k, v) else p)) k = some v := by
  induction m with
  | nil => simp at h
  | cons p m ih =>
    simp only [List.map_cons]
    by_cases hp : (p.1 == k) = true
    · rw [if_pos hp, lookupKey_cons]
      simp
    · rw [if_neg hp, lookupKey_cons]
      have hpk : ¬ p.1 = k := by simpa using hp
      rw [if_neg hpk]
      simp only [List.any_cons] at h
      rw [Bool.or_eq_true] at h
      rcases h with h | h
      · exact absurd h hp
      · exact ih h

theorem lookupKey_mapSet_ne (m : ByIdMap) (k : String) (v : Nat) (k' : String)
    (h : k' ≠ k) :
    lookupKey (m.map (fun p => if p.1 == k then (k, v) else p)) k' = lookupKey m k' := by
  induction m with
  | nil => rfl
  | cons p m ih =>
    simp only [List.map_cons]
    by_cases hp : (p.1 == k) = true
    · rw [if_pos hp, lookupKey_cons, lookupKey_cons]
      have hpk : p.1 = k := by simpa using hp
      have hk1 : ¬ ((k, v).1 = k') := fun hkk => h (hkk.symm)
      have hk2 : ¬ (p.1 = k') := by rw [hpk]; exact fun hkk => h (hkk.symm)
      rw [if_neg hk1, if_neg hk2]
      exact ih
    · rw [if_neg hp, lookupKey_cons, lookupKey_cons]
      by_cases hq : p.1 = k'
      · rw [if_pos hq, if_pos hq]
      · rw [if_neg hq, if_neg hq]
        exact ih

theorem lookupKey_setKey_self (m : ByIdMap) (k : String) (v : Nat) :
    lookupKey (setKey m k v) k = some v := by
  unfold setKey
  by_cases hin : m.any (fun p => p.1 == k)
  · rw [if_pos hin]
    exact lookupKey_mapSet_self m k v hin
  · rw [if_neg hin]
    apply lookupKey_append_self
    intro p hp hpk
    exact hin (List.any_eq_true.mpr ⟨p, hp, by simpa using hpk⟩)

theorem lookupKey_setKey_ne (m : ByIdMap) (k : String) (v : Nat) (k' : String)
    (h : k' ≠ k) : lookupKey (setKey m k v) k' = lookupKey m k' := by
  unfold setKey
  by_cases hin : m.any (fun p => p.1 == k)
  · rw [if_pos hin]
    exact lookupKey_mapSet_ne m k v k' h
  · rw [if_neg hin]
    exact lookupKey_append_ne m k v k' h

theorem mem_setKey {p : String × Nat} {m : ByIdMap} {k : String} {v : Nat}
    (h : p ∈ setKey m k v) : p = (k, v) ∨ (p ∈ m ∧ p.1 ≠ k) := by
  unfold setKey at h
  by_cases hin : m.any (fun q => q.1 == k)
  · rw [if_pos hin] at h
    rw [List.mem_map] at h
    obtain ⟨q, hq, hqe⟩ := h
    by_cases hqk : q.1 = k
    · simp only [hqk, beq_self_eq_true, if_true] at hqe
      left; exact hqe.symm
    · simp only [beq_iff_eq, hqk, if_false] at hqe
      right; exact ⟨hqe ▸ hq, hqe ▸ hqk⟩
  · rw [if_neg hin] at h
    rw [List.mem_append, List.mem_singleton] at h
    rcases h with h | h
    · by_cases hpk : p.1 = k
      · exact absurd (List.any_eq_true.mpr ⟨p, h, by simpa using hpk⟩) hin
      · right; exact ⟨h, hpk⟩
    · left; exact h

theorem mem_eraseKey {p : String × Nat} {m : ByIdMap} {k : String} :
    p ∈ eraseKey m k ↔ p ∈ m ∧ p.1 ≠ k := by
  simp [eraseKey, List.mem_filter]

theorem lookupKey_eraseKey_self (m : ByIdMap) (k : String) :
    lookupKey (eraseKey m k) k = none := by
  rw [lookupKey_eq_none_iff]
  intro p hp
  exact (mem_eraseKey.mp hp).2

theorem lookupKey_eraseKey_ne (m : ByIdMap) (k k' : String) (h : k' ≠ k) :
    lookupKey (eraseKey m k) k' = lookupKey m k' := by
  induction m with
  | nil => rfl
  | cons p m ih =>
    show lookupKey (List.filter _ (p :: m)) k' = _
    rw [List.filter_cons]
    by_cases hp : (p.1 == k) = true
    · have hne : (!(p.1 == k)) = false := by rw [hp]; rfl
      rw [hne]
      simp only [Bool.false_eq_true, if_false]
      rw [lookupKey_cons]
      have hpk : p.1 = k := by simpa using hp
      have hk2 : ¬ (p.1 = k') := by rw [hpk]; exact fun hkk => h (hkk.symm)
      rw [if_neg hk2]
      exact ih
    · have hbk : (p.1 == k) = false := by simpa using hp
      have hne : (!(p.1 == k)) = true := by rw [hbk]; rfl
      rw [hne]
      simp only [if_true]
      rw [lookupKey_cons, lookupKey_cons]
      by_cases hq : p.1 = k'
      · rw [if_pos hq, if_pos hq]
      · rw [if_neg hq, if_neg hq]
        exact ih

/-! ## Lemmas about the heap -/

theorem heapGet_append {h : Heap} {f : Obj} {a : Nat} (ha : a < h.length) :
    heapGet (h ++ [f]) a = heapGet h a := by
  simp [heapGet, List.getD_eq_getElem?_getD, List.getElem?_append, ha]

theorem heapGet_append_self (h : Heap) (f : Obj) :
    heapGet (h ++ [f]) h.length = f := by
  simp [heapGet, List.getD_eq_getElem?_getD, List.getElem?_concat_length]

theorem heapGet_set_self {h : Heap} {a : Nat} (o : Obj) (ha : a < h.length) :
    heapGet (heapSet h a o) a = o := by
  simp [heapGet, heapSet, List.getD_eq_getElem?_getD, List.getElem?_set_self ha]

theorem heapGet_set_ne {h : Heap} {a b : Nat} (o : Obj) (hab : a ≠ b) :
    heapGet (heapSet h a o) b = heapGet h b := by
  simp [heapGet, heapSet, List.getD_eq_getElem?_getD, List.getElem?_set_ne hab]

theorem heapSet_length (h : Heap) (a : Nat) (o : Obj) :
    (heapSet h a o).length = h.length := List.length_set h a o

theorem replaceObjectProperties_length (h : Heap) (e m : Nat) :
    (replaceObjectProperties h e m).length = h.length := by
  simp [replaceObjectProperties, heapSet_length]

theorem replaceObjectProperties_get_target {h : Heap} {e m : Nat}
    (he : e < h.length) (hem : e ≠ m) :
    heapGet (replaceObjectProperties h e m) e = heapGet h m := by
  show heapGet (heapSet (heapSet h e []) e (heapGet (heapSet h e []) m)) e = heapGet h m
  rw [heapGet_set_self _ (by simpa [heapSet_length] using he)]
  rw [heapGet_set_ne _ hem]

theorem replaceObjectProperties_get_other {h : Heap} {e m b : Nat} (hb : b ≠ e) :
    heapGet (replaceObjectProperties h e m) b = heapGet h b := by
  show heapGet (heapSet (heapSet h e []) e (heapGet (heapSet h e []) m)) b = heapGet h b
  rw [heapGet_set_ne _ (Ne.symm hb), heapGet_set_ne _ (Ne.symm hb)]

/-! ## Lemmas about the queue -/

theorem mem_queueAdd_self (q : List Nat) (x : Nat) : x ∈ queueAdd q x := by
  unfold queueAdd
  by_cases h : x ∈ q <;> simp [h]

theorem mem_queueAdd_of_mem {q : List Nat} {x : Nat} (y : Nat) (h : x ∈ q) :
    x ∈ queueAdd q y := by
  unfold queueAdd
  by_cases hy : y ∈ q <;> simp [hy, h]

theorem mem_queueAddList_of_mem {q : List Nat} {x : Nat} (xs : List Nat) (h : x ∈ q) :
    x ∈ queueAddList q xs := by
  induction xs generalizing q with
  | nil => exact h
  | cons y ys ih => exact ih (mem_queueAdd_of_mem y h)

theorem mem_queueAddList {q : List Nat} {x : Nat} {xs : List Nat} (h : x ∈ xs) :
    x ∈ queueAddList q xs := by
  induction xs generalizing q with
  | nil => cases h
  | cons y ys ih =>
    rcases List.mem_cons.mp h with rfl | h
    · exact mem_queueAddList_of_mem ys (mem_queueAdd_self q x)
    · exact ih h

theorem queueDrain_eq_reverse (q : List Nat) : queueDrain q = q.reverse := by
  induction q using List.reverseRecOn with
  | nil => simp [queueDrain]
  | append_singleton xs x ih =>
    have hne : xs ++ [x] ≠ [] := by simp
    rw [queueDrain, dif_neg hne]
    have h1 : (xs ++ [x]).getLast hne = x := List.getLast_append hne
    have h2 : (xs ++ [x]).dropLast = xs := List.dropLast_concat
    rw [h1, h2, ih]
    simp

theorem nodup_queueAdd {q : List Nat} (x : Nat) (h : q.Nodup) : (queueAdd q x).Nodup := by
  unfold queueAdd
  by_cases hx : x ∈ q
  · simpa [hx]
  · rw [if_neg hx, List.nodup_append]
    refine ⟨h, List.nodup_singleton x, ?_⟩
    intro a ha hax
    rw [List.mem_singleton] at hax
    subst hax
    exact hx ha

theorem qreach_nodup {q : List Nat} (h : QReach q) : q.Nodup := by
  obtain ⟨ops, hops⟩ := h
  subst hops
  induction ops using List.reverseRecOn with
  | nil => simp
  | append_singleton ops op ih =>
    rw [List.foldl_append]
    cases op with
    | qadd x => exact nodup_queueAdd x ih
    | qremove x => exact List.Nodup.erase x ih
    | qempty => simp [applyQOp]
    | qrun => simp [applyQOp]

/-! ## Lemmas about repoId and the repository operations -/

theorem repoId_append {idAttr : String} {h : Heap} {f : Obj} {a : Nat} (ha : a < h.length) :
    repoId idAttr (h ++ [f]) a = repoId idAttr h a := by
  simp [repoId, heapGet_append ha]

theorem repoId_append_self (idAttr : String) (h : Heap) (f : Obj) :
    repoId idAttr (h ++ [f]) h.length = lookupField f idAttr := by
  simp [repoId, heapGet_append_self]

theorem pairwise_key_congr {l : List Nat} {f g : Nat → String}
    (hfg : ∀ a ∈ l, f a = g a) (h : l.Pairwise (fun a b => f a ≠ f b)) :
    l.Pairwise (fun a b => g a ≠ g b) := by
  induction l with
  | nil => exact .nil
  | cons x xs ih =>
    rw [List.pairwise_cons] at h ⊢
    refine ⟨fun y hy => ?_, ih (fun a ha => hfg a (List.mem_cons_of_mem _ ha)) h.2⟩
    rw [← hfg x (List.mem_cons_self _ _), ← hfg y (List.mem_cons_of_mem _ hy)]
    exact h.1 y hy

theorem addOne_eq_found (idAttr : String) (s : RepoState) (m e : Nat)
    (hfind : repoGet idAttr s m = some e) :
    addOne idAttr s m =
      (⟨replaceObjectProperties s.heap e m, s.data,
        if truthy (repoId idAttr s.heap m) then
          setKey s.byId (jsKey (repoId idAttr s.heap m)) e
        else s.byId⟩,
       [⟨"change", e, ⟨replaceObjectProperties s.heap e m, s.data, s.byId⟩⟩,
        ⟨"update", e, ⟨replaceObjectProperties s.heap e m, s.data, s.byId⟩⟩]) := by
  simp only [addOne, hfind]

theorem addOne_eq_notfound (idAttr : String) (s : RepoState) (m : Nat)
    (hfind : repoGet idAttr s m = none) :
    addOne idAttr s m =
      (⟨s.heap, s.data ++ [m],
        if truthy (repoId idAttr s.heap m) then
          setKey s.byId (jsKey (repoId idAttr s.heap m)) m
        else s.byId⟩,
       [⟨"change", m, ⟨s.heap, s.data ++ [m], s.byId⟩⟩,
        ⟨"add", m, ⟨s.heap, s.data ++ [m], s.byId⟩⟩]) := by
  simp only [addOne, hfind]

theorem removeOne_eq (idAttr : String) (s : RepoState) (m : Nat) :
    removeOne idAttr s m =
      (⟨s.heap, s.data.erase m,
        if truthy (repoId idAttr s.heap m) then
          eraseKey s.byId (jsKey (repoId idAttr s.heap m))
        else s.byId⟩,
       ([⟨"change", m, ⟨s.heap, s.data.erase m,
           if truthy (repoId idAttr s.heap m) then
             eraseKey s.byId (jsKey (repoId idAttr s.heap m))
           else s.byId⟩⟩,
         ⟨"remove", m, ⟨s.heap, s.data.erase m,
           if truthy (repoId idAttr s.heap m) then
             eraseKey s.byId (jsKey (repoId idAttr s.heap m))
           else s.byId⟩⟩], m)) := rfl

/-! ## Preservation of the repository invariant under the restricted discipline -/

theorem addOne_fresh_inv (idAttr : String) (s : RepoState) (f : Obj)
    (hs : RepoInv idAttr s) (hf : truthy (lookupField f idAttr) = true) :
    RepoInv idAttr (applyOp idAttr s (.add f)) := by
  obtain ⟨hnd, hval, htr, hpw, hlk, hent⟩ := hs
  set a := s.heap.length with ha_def
  set h1 : Heap := s.heap ++ [f] with h1_def
  set s1 : RepoState := ⟨h1, s.data, s.byId⟩ with s1_def
  have hid1 : repoId idAttr h1 a = lookupField f idAttr := repoId_append_self idAttr s.heap f
  have htid : truthy (repoId idAttr h1 a) = true := by rw [hid1]; exact hf
  set key := jsKey (lookupField f idAttr) with key_def
  have hid_mem : ∀ b ∈ s.data, repoId idAttr h1 b = repoId idAttr s.heap b := by
    intro b hb
    exact repoId_append (hval b hb)
  have hget : repoGet idAttr s1 a = lookupKey s.byId key := by
    unfold repoGet
    simp only [s1_def, hid1]
    rw [if_pos (by rw [← hid1]; exact htid)]
  have happ : applyOp idAttr s (ROp.add f) = (addOne idAttr s1 a).1 := rfl
  cases hfind : lookupKey s.byId key with
  | none =>
    have hres : (addOne idAttr s1 a).1 = ⟨h1, s.data ++ [a], setKey s.byId key a⟩ := by
      rw [addOne_eq_notfound idAttr s1 a (by rw [hget, hfind])]
      simp only [s1_def, hid1, hf, if_pos, key_def]
    rw [happ, hres]
    -- no entity in data carries the fresh key, else the lookup would have found it
    have hkey_new : ∀ b ∈ s.data, jsKey (repoId idAttr s.heap b) ≠ key := by
      intro b hb hbk
      have := hlk b hb
      rw [hbk, hfind] at this
      exact Option.noConfusion this
    have hmemlen : ∀ b ∈ s.data, b ≠ a := fun b hb => Nat.ne_of_lt (hval b hb)
    refine ⟨?_, ?_, ?_, ?_, ?_, ?_⟩
    · rw [List.nodup_append]
      refine ⟨hnd, List.nodup_singleton a, ?_⟩
      intro b hb hba
      rw [List.mem_singleton] at hba
      exact hmemlen b hb hba
    · intro b hb
      rcases List.mem_append.mp hb with hb | hb
      · calc b < s.heap.length := hval b hb
          _ ≤ h1.length := by simp [h1_def]
      · rw [List.mem_singleton] at hb
        subst hb
        simp [h1_def, ha_def]
    · intro b hb
      rcases List.mem_append.mp hb with hb | hb
      · rw [hid_mem b hb]; exact htr b hb
      · rw [List.mem_singleton] at hb
        subst hb
        exact htid
    · rw [List.pairwise_append]
      refine ⟨?_, List.pairwise_singleton _ _, ?_⟩
      · exact pairwise_key_congr (fun b hb => by rw [hid_mem b hb]) hpw
      · intro b hb c hc
        rw [List.mem_singleton] at hc
        subst hc
        rw [hid_mem b hb, hid1]
        exact hkey_new b hb
    · intro b hb
      rcases List.mem_append.mp hb with hb | hb
      · rw [hid_mem b hb]
        rw [lookupKey_setKey_ne _ _ _ _ (hkey_new b hb)]
        exact hlk b hb
      · rw [List.mem_singleton] at hb
        subst hb
        rw [hid1]
        exact lookupKey_setKey_self _ _ _
    · intro p hp
      rcases mem_setKey hp with rfl | ⟨hp, hpk⟩
      · refine ⟨List.mem_append_right _ (List.mem_singleton_self a), ?_⟩
        rw [hid1]
      · obtain ⟨hpd, hpkey⟩ := hent p hp
        refine ⟨List.mem_append_left _ hpd, ?_⟩
        rw [hid_mem p.2 hpd]
        exact hpkey
  | some e =>
    have he_mem : (key, e) ∈ s.byId := lookupKey_some_mem hfind
    obtain ⟨heData, heKey⟩ := hent _ he_mem
    have heLt : e < s.heap.length := hval e heData
    have hea : e ≠ a := Nat.ne_of_lt heLt
    have hres : (addOne idAttr s1 a).1 =
        ⟨replaceObjectProperties h1 e a, s.data, setKey s.byId key e⟩ := by
      rw [addOne_eq_found idAttr s1 a e (by rw [hget, hfind])]
      simp only [s1_def, hid1, hf, if_pos, key_def]
    rw [happ, hres]
    set h2 := replaceObjectProperties h1 e a with h2_def
    have hget_e : heapGet h2 e = f := by
      rw [h2_def,
        replaceObjectProperties_get_target (by simpa [h1_def] using Nat.lt_succ_of_lt heLt) hea]
      rw [h1_def, ha_def, heapGet_append_self]
    have hid2_e : repoId idAttr h2 e = lookupField f idAttr := by
      rw [repoId, hget_e]
    have hid2_other : ∀ b ∈ s.data, b ≠ e → repoId idAttr h2 b = repoId idAttr s.heap b := by
      intro b hb hbe
      rw [h2_def, repoId, replaceObjectProperties_get_other hbe, ← repoId]
      exact hid_mem b hb
    have hkey2 : ∀ b ∈ s.data, jsKey (repoId idAttr h2 b) = jsKey (repoId idAttr s.heap b) := by
      intro b hb
      by_cases hbe : b = e
      · subst hbe
        rw [hid2_e, ← key_def, heKey]
      · rw [hid2_other b hb hbe]
    have hlen2 : h2.length = s.heap.length + 1 := by
      rw [h2_def, replaceObjectProperties_length, h1_def]
      simp
    refine ⟨hnd, ?_, ?_, ?_, ?_, ?_⟩
    · intro b hb
      rw [hlen2]
      exact Nat.lt_succ_of_lt (hval b hb)
    · intro b hb
      by_cases hbe : b = e
      · subst hbe
        rw [hid2_e]; exact hf
      · rw [hid2_other b hb hbe]; exact htr b hb
    · exact pairwise_key_congr (fun b hb => (hkey2 b hb).symm) hpw
    · intro b hb
      by_cases hbe : b = e
      · subst hbe
        rw [hkey2 b hb, heKey]
        exact lookupKey_setKey_self _ _ _
      · rw [hkey2 b hb]
        have hbkey : jsKey (repoId idAttr s.heap b) ≠ key := by
          intro hbk
          have hh := hlk b hb
          rw [hbk, hfind] at hh
          injection hh with hh2
          exact hbe hh2.symm
        rw [lookupKey_setKey_ne _ _ _ _ hbkey]
        exact hlk b hb
    · intro p hp
      rcases mem_setKey hp with rfl | ⟨hp, hpk⟩
      · exact ⟨heData, by rw [hkey2 e heData, heKey]⟩
      · obtain ⟨hpd, hpkey⟩ := hent p hp
        refine ⟨hpd, ?_⟩
        have hpe : p.2 ≠ e := by
          intro hpe
          rw [hpe, heKey] at hpkey
          exact hpk hpkey.symm
        rw [hkey2 p.2 hpd]
        exact hpkey

theorem removeRef_inv (idAttr : String) (s : RepoState) (a : Nat)
    (hs : RepoInv idAttr s) (ha : a ∈ s.data) :
    RepoInv idAttr (applyOp idAttr s (.removeRef a)) := by
  obtain ⟨hnd, hval, htr, hpw, hlk, hent⟩ := hs
  have haLt : a < s.heap.length := hval a ha
  have happ : applyOp idAttr s (ROp.removeRef a) = (removeOne idAttr s a).1 := by
    simp [applyOp, haLt]
  have hta : truthy (repoId idAttr s.heap a) = true := htr a ha
  have hres : (removeOne idAttr s a).1 =
      ⟨s.heap, s.data.erase a, eraseKey s.byId (jsKey (repoId idAttr s.heap a))⟩ := by
    rw [removeOne_eq, if_pos hta]
  rw [happ, hres]
  have hkey_ne : ∀ b ∈ s.data, b ≠ a →
      jsKey (repoId idAttr s.heap b) ≠ jsKey (repoId idAttr s.heap a) := by
    intro b hb hba
    exact hpw.forall (fun x y hxy => hxy.symm) hb ha hba
  refine ⟨hnd.erase a, ?_, ?_, ?_, ?_, ?_⟩
  · intro b hb
    exact hval b (List.mem_of_mem_erase hb)
  · intro b hb
    exact htr b (List.mem_of_mem_erase hb)
  · exact List.Pairwise.sublist (List.erase_sublist a s.data) hpw
  · intro b hb
    have hbd : b ∈ s.data := List.mem_of_mem_erase hb
    have hba : b ≠ a := by
      intro hba
      subst hba
      exact hnd.not_mem_erase hb
    rw [lookupKey_eraseKey_ne _ _ _ (hkey_ne b hbd hba)]
    exact hlk b hbd
  · intro p hp
    obtain ⟨hp, hpk⟩ := mem_eraseKey.mp hp
    obtain ⟨hpd, hpkey⟩ := hent p hp
    have hpa : p.2 ≠ a := by
      intro hpa
      rw [hpa] at hpkey
      exact hpk hpkey.symm
    refine ⟨(List.mem_erase_of_ne hpa).mpr hpd, hpkey⟩

theorem mem_emptyFold (idAttr : String) (h : Heap) (l : List Nat) (b : ByIdMap)
    (p : String × Nat)
    (hp : p ∈ l.foldl
      (fun acc x =>
        if truthy (repoId idAttr h x) then eraseKey acc (jsKey (repoId idAttr h x)) else acc)
      b) :
    p ∈ b ∧ ∀ x ∈ l, truthy (repoId idAttr h x) = true → p.1 ≠ jsKey (repoId idAttr h x) := by
  induction l generalizing b with
  | nil => exact ⟨hp, by simp⟩
  | cons x xs ih =>
    rw [List.foldl_cons] at hp
    obtain ⟨hp1, hp2⟩ := ih _ hp
    by_cases hx : truthy (repoId idAttr h x) = true
    · rw [if_pos hx] at hp1
      obtain ⟨hp1, hp1k⟩ := mem_eraseKey.mp hp1
      refine ⟨hp1, ?_⟩
      intro y hy hty
      rcases List.mem_cons.mp hy with rfl | hy
      · exact hp1k
      · exact hp2 y hy hty
    · rw [if_neg hx] at hp1
      refine ⟨hp1, ?_⟩
      intro y hy hty
      rcases List.mem_cons.mp hy with rfl | hy
      · exact absurd hty hx
      · exact hp2 y hy hty

theorem emptyRepo_inv (idAttr : String) (s : RepoState)
    (hs : RepoInv idAttr s) : RepoInv idAttr (applyOp idAttr s .emptyOp) := by
  obtain ⟨hnd, hval, htr, hpw, hlk, hent⟩ := hs
  have happ : applyOp idAttr s ROp.emptyOp = emptyRepo idAttr s := rfl
  rw [happ]
  have hbyid : (emptyRepo idAttr s).byId = [] := by
    rw [List.eq_nil_iff_forall_not_mem]
    intro p hp
    obtain ⟨hp1, hp2⟩ := mem_emptyFold idAttr s.heap s.data.reverse s.byId p hp
    obtain ⟨hpd, hpkey⟩ := hent p hp1
    exact hp2 p.2 (List.mem_reverse.mpr hpd) (htr p.2 hpd) hpkey.symm
  refine ⟨?_, ?_, ?_, ?_, ?_, ?_⟩ <;>
    simp only [emptyRepo] at hbyid ⊢ <;>
    first
      | exact List.nodup_nil
      | (intro b hb; cases hb)
      | exact List.Pairwise.nil
      | (rw [hbyid]; intro p hp; cases hp)

theorem repoInv_specInv (idAttr : String) (s : RepoState) (hs : RepoInv idAttr s) :
    SpecInv idAttr s := by
  obtain ⟨hnd, hval, htr, hpw, hlk, hent⟩ := hs
  refine ⟨?_, ?_, ?_⟩
  · exact hpw.imp (fun h _ _ => h)
  · intro a ha _
    exact hlk a ha
  · intro p hp
    obtain ⟨hpd, hpkey⟩ := hent p hp
    exact ⟨hpd, htr p.2 hpd, hpkey⟩

theorem goodOps_repoInv (idAttr : String) (s : RepoState) (ops : List ROp)
    (hs : RepoInv idAttr s) (hops : GoodOps idAttr s ops) :
    RepoInv idAttr (applyOps idAttr s ops) := by
  induction ops generalizing s with
  | nil => exact hs
  | cons op ops ih =>
    cases hops with
    | cons hop hops =>
      refine ih _ ?_ hops
      cases op with
      | add f => exact addOne_fresh_inv idAttr s f hs hop
      | addRef a => cases hop
      | remove f => cases hop
      | removeRef a => exact removeRef_inv idAttr s a hs hop
      | emptyOp => exact emptyRepo_inv idAttr s hs

theorem initRepo_inv (idAttr : String) : RepoInv idAttr initRepo := by
  refine ⟨List.nodup_nil, ?_, ?_, List.Pairwise.nil, ?_, ?_⟩ <;>
    (intro b hb; cases hb)

/-! ## Claim theorems -/

/-- C1, counterexample: the store invariant does not survive every add
sequence.  Adding the identity-carrying entity with id 1 and name a and then
adding a fresh identity-less entity with name a makes addOne merge the second
into the first, which strips the id field in place while byId keeps its
entry; afterwards byId holds an entry for an identity no longer present in
data, refuting the invariant as stated. -/
theorem C1_counterexample :
    ¬ SpecInv "id" (applyOps "id" initRepo
      [ROp.add [("id", JsVal.num 1), ("name", JsVal.str "a")],
       ROp.add [("name", JsVal.str "a")]]) := by decide

/-- C1, amended: the store invariant does hold for every sequence of
add/remove/empty calls in which each added entity is a fresh object carrying
a truthy identity and each removed entity is a current member of data passed
by reference: then data never holds two entities with one identity, byId maps
each stored identity to the reference-identical entity, and byId holds no
other entries. -/
theorem C1_invariant_restricted (idAttr : String) (ops : List ROp)
    (h : GoodOps idAttr initRepo ops) :
    SpecInv idAttr (applyOps idAttr initRepo ops) :=
  repoInv_specInv _ _ (goodOps_repoInv idAttr initRepo ops (initRepo_inv idAttr) h)

/-- Witness for C1: a concrete well-disciplined add/remove/empty run ending
in a state satisfying the invariant. -/
theorem C1_invariant_restricted_witness :
    GoodOps "id" initRepo [ROp.add [("id", JsVal.num 1)], ROp.removeRef 0, ROp.emptyOp] ∧
    SpecInv "id" (applyOps "id" initRepo
      [ROp.add [("id", JsVal.num 1)], ROp.removeRef 0, ROp.emptyOp]) :=
  have gp : GoodOps "id" initRepo
      [ROp.add [("id", JsVal.num 1)], ROp.removeRef 0, ROp.emptyOp] :=
    GoodOps.cons (by decide) (GoodOps.cons (by decide) (GoodOps.cons (by decide) GoodOps.nil))
  ⟨gp, C1_invariant_restricted "id" _ gp⟩

/-- C2: the synchronous part of reset does not clear data.  With two
entities in data and one pending save, reset empties both queues and byId,
but the splice-while-iterating clearing loop leaves the second entity in
data; the subsequent reconciliation of the fetched response therefore does
not leave data equal to the server response.  The variant clearing loop in
the unnamed source part does empty the array. -/
theorem C2_reset_leaves_stale_entity :
    (let s : ModelState :=
      ⟨[[("id", JsVal.num 1)], [("id", JsVal.num 2)], [("id", JsVal.num 3)]],
       [0, 1], [("1", 0), ("2", 1)], [0], []⟩
     (modelResetLocal s).saveQ = [] ∧
     (modelResetLocal s).destroyQ = [] ∧
     (modelResetLocal s).byId = [] ∧
     (modelResetLocal s).data = [1] ∧
     (modelResetLocal s).data ≠ [] ∧
     (addModelsToLocalData "id" (modelResetLocal s) [2] false).data = [1, 2] ∧
     (addModelsToLocalData "id" (modelResetLocal s) [2] false).data ≠ [2] ∧
     replaceArrayPropertiesFixed ([0, 1] : List Nat) none = []) := by decide

/-- C3: replaceObjectProperties as imported from src/src/helpers diverges
from the claim.  On an array target of three elements and an array source of
one, the clearing loop leaves the second element so the result is not the
source; and on a same-reference call the object is wiped to empty instead of
being left alone.  The copy in the unnamed source part (part_001 lines
35-59) behaves exactly as the claim states on the same inputs. -/
theorem C3_replace_divergence :
    replaceArrayProperties ([10, 11, 12] : List Nat) (some [20]) = [11, 20] ∧
    replaceArrayProperties ([10, 11, 12] : List Nat) (some [20]) ≠ [20] ∧
    replaceArrayPropertiesFixed ([10, 11, 12] : List Nat) (some [20]) = [20] ∧
    replaceArrayProperties ([10, 11] : List Nat) none = [11] ∧
    replaceArrayPropertiesFixed ([10, 11] : List Nat) none = [] ∧
    replaceObjectProperties [[("x", JsVal.num 1)]] 0 0 = [[]] ∧
    replaceObjectPropertiesFixed [[("x", JsVal.num 1)]] 0 0 = [[("x", JsVal.num 1)]] := by
  decide

/-- C4, counterexample: a registration scoped to event add but to no entity
is invoked by a trigger of event update with an entity payload (an internal
hook for update exists because another registration listens to update),
although the claim's filter requires the registration's event to be unset or
equal to the triggered event. -/
theorem C4_counterexample :
    (let st := listenTo (listenTo ⟨[], []⟩ none (some "add") 0) none (some "update") 1
     (⟨none, some "add", 0⟩ : Reg) ∈
        triggerScoped "id" [[("id", JsVal.num 7)]] st "update" (some 0) ∧
     ¬ ((some "add" : Option String) = none ∨
        (some "add" : Option String) = some "update")) := by decide

/-- C4, amended: for an entity payload, a registration's callback is invoked
iff an internal hook is bound for the triggered event, the registration is
recorded, and either the registration has no model scope (its event scope is
then ignored), or it is scoped to a model and the event matches and the
payload is reference-identical to the scope entity or carries a truthy
identity loosely equal to the scope entity's identity. -/
theorem C4_dispatch_characterization (idAttr : String) (h : Heap) (st : ListenerState)
    (event : String) (m : Nat) (l : Reg) :
    l ∈ triggerScoped idAttr h st event (some m) ↔
      (some event ∈ st.internalListeners ∧ l ∈ st.listeners ∧
        (l.model = none ∨ ∃ lm, l.model = some lm ∧
          (l.event = none ∨ l.event = some event) ∧
          (m = lm ∨ (truthy (repoId idAttr h m) = true ∧
            looseEq (repoId idAttr h m) (repoId idAttr h lm) = true)))) := by
  unfold triggerScoped runModelListeners
  by_cases hin : some event ∈ st.internalListeners
  · rw [if_pos hin, List.mem_filter]
    simp only [hin, true_and]
    constructor
    · rintro ⟨hl, hmatch⟩
      refine ⟨hl, ?_⟩
      unfold listenerMatches at hmatch
      cases hml : l.model with
      | none => exact Or.inl rfl
      | some lm =>
        right
        rw [hml] at hmatch
        rw [Bool.and_eq_true] at hmatch
        obtain ⟨hev, hmm⟩ := hmatch
        refine ⟨lm, rfl, ?_, ?_⟩
        · cases hle : l.event with
          | none => exact Or.inl rfl
          | some le =>
            right
            rw [hle] at hev
            have : le = event := by simpa using hev
            rw [this]
        · rw [Bool.or_eq_true] at hmm
          rcases hmm with hmm | hmm
          · exact Or.inl (by simpa using hmm)
          · rw [Bool.and_eq_true] at hmm
            exact Or.inr ⟨hmm.1, hmm.2⟩
    · rintro ⟨hl, hcond⟩
      refine ⟨hl, ?_⟩
      unfold listenerMatches
      rcases hcond with hnone | ⟨lm, hml, hev, hmm⟩
      · rw [hnone]
      · rw [hml]
        rw [Bool.and_eq_true]
        constructor
        · rcases hev with h0 | h0
          · rw [h0]
          · rw [h0]
            simp
        · rw [Bool.or_eq_true]
          rcases hmm with h0 | ⟨h1, h2⟩
          · exact Or.inl (by simpa using h0)
          · exact Or.inr (by rw [Bool.and_eq_true]; exact ⟨h1, h2⟩)
  · rw [if_neg hin]
    simp [hin]

/-- C5: with idAttribute id, adding the entity id 1 name a into an empty
store and then adding a fresh entity id 1 name b leaves exactly the first
object in data, its fields replaced to id 1 name b, indexed under key 1; the
second call's argument object is not stored; and across both calls exactly
one update event fires, with the first object as its payload. -/
theorem C5_inplace_update_scenario :
    (let h0 : Heap := [[("id", JsVal.num 1), ("name", JsVal.str "a")],
                       [("id", JsVal.num 1), ("name", JsVal.str "b")]]
     let r1 := addOne "id" ⟨h0, [], []⟩ 0
     let r2 := addOne "id" r1.1 1
     r2.1.data = [0] ∧
     heapGet r2.1.heap 0 = [("id", JsVal.num 1), ("name", JsVal.str "b")] ∧
     lookupKey r2.1.byId "1" = some 0 ∧
     (1 : Nat) ∉ r2.1.data ∧
     ((r1.2 ++ r2.2).filter (fun ev => ev.name == "update")).map (fun ev => ev.payload)
        = [0] ∧
     ((r1.2 ++ r2.2).filter (fun ev => ev.name == "update")).length = 1) := by decide

/-- C6, counterexample: removing an entity that is not in data is not a
silent no-op: removeOne still deletes the byId entry matching the argument's
identity (here orphaning the index entry of the entity that is stored) and
still emits change and remove. -/
theorem C6_counterexample :
    (let s : RepoState :=
      ⟨[[("id", JsVal.num 1)], [("id", JsVal.num 1), ("name", JsVal.str "x")]],
       [0], [("1", 0)]⟩
     (1 : Nat) ∉ s.data ∧
     (removeOne "id" s 1).1.byId ≠ s.byId ∧
     (removeOne "id" s 1).1.byId = [] ∧
     (removeOne "id" s 1).2.1 ≠ ([] : List Ev) ∧
     (removeOne "id" s 1).1.data = s.data) := by decide

/-- C6, amended: removeOne splices a found-by-reference entity out of data
(the first occurrence, and data is unchanged exactly when the entity is not
found); it always emits change then remove, found or not; it always returns
the argument; it deletes the byId entry for the argument's identity exactly
when that identity is truthy, found or not; and only the Model-level
removeModelsFromLocalData path skips a not-found entity silently, touching
nothing but the destroy queue. -/
theorem C6_remove_semantics (idAttr : String) (s : RepoState) (t : ModelState) (m : Nat) :
    ((removeOne idAttr s m).2.1).map (fun ev => ev.name) = ["change", "remove"] ∧
    (removeOne idAttr s m).2.2 = m ∧
    (removeOne idAttr s m).1.data = s.data.erase m ∧
    (m ∉ s.data → (removeOne idAttr s m).1.data = s.data) ∧
    (removeOne idAttr s m).1.byId =
      (if truthy (repoId idAttr s.heap m) then
        eraseKey s.byId (jsKey (repoId idAttr s.heap m))
      else s.byId) ∧
    (findModelInLocalData idAttr t m = none →
      removeModelsFromLocalData idAttr t [m] true =
        { t with destroyQ := queueAdd t.destroyQ m }) := by
  refine ⟨rfl, rfl, rfl, ?_, rfl, ?_⟩
  · intro h
    rw [removeOne_eq]
    exact List.erase_of_not_mem h
  · intro h
    unfold removeModelsFromLocalData
    simp only [List.foldl_cons, List.foldl_nil, h, if_true]
    rfl

/-- Witness for C6 at a found entity (spliced out) and at a not-found one
(data untouched, Model-level remove changes only the destroy queue). -/
theorem C6_remove_semantics_witness :
    ((2 : Nat) ∉ (⟨[[("id", JsVal.num 1)]], [0], [("1", 0)]⟩ : RepoState).data) ∧
    (removeOne "id" ⟨[[("id", JsVal.num 1)]], [0], [("1", 0)]⟩ 2).1.data = [0] ∧
    (removeOne "id" ⟨[[("id", JsVal.num 1)]], [0], [("1", 0)]⟩ 0).1.data = [] ∧
    ((removeOne "id" ⟨[[("id", JsVal.num 1)]], [0], [("1", 0)]⟩ 2).2.1).map
      (fun ev => ev.name) = ["change", "remove"] ∧
    findModelInLocalData "id" ⟨[[("id", JsVal.num 1)]], [], [], [], []⟩ 0 = none ∧
    removeModelsFromLocalData "id" ⟨[[("id", JsVal.num 1)]], [], [], [], []⟩ [0] true =
      ⟨[[("id", JsVal.num 1)]], [], [], [], [0]⟩ :=
  have h1 := C6_remove_semantics "id" ⟨[[("id", JsVal.num 1)]], [0], [("1", 0)]⟩
    ⟨[[("id", JsVal.num 1)]], [], [], [], []⟩ 2
  have h2 := C6_remove_semantics "id" ⟨[[("id", JsVal.num 1)]], [0], [("1", 0)]⟩
    ⟨[[("id", JsVal.num 1)]], [], [], [], []⟩ 0
  ⟨by decide, h1.2.2.2.1 (by decide), h2.2.2.1, h1.1, by decide,
    h2.2.2.2.2.2 (by decide)⟩

/-- C7: when addOne merges an incoming identified entity into an existing
entity that previously carried no identity, the byId entry under the gained
identity already references that very entity at every event emission of the
add and in the final state: no listener observes the merged entity with its
identity present but its byId entry absent or stale. -/
theorem C7_byId_atomic_on_merge (idAttr : String) (s : RepoState) (m e : Nat)
    (hv : e < s.heap.length)
    (hget : repoGet idAttr s m = some e)
    (hm : truthy (repoId idAttr s.heap m) = true)
    (he : truthy (repoId idAttr s.heap e) = false) :
    (∀ ev ∈ (addOne idAttr s m).2,
      lookupKey ev.view.byId (jsKey (repoId idAttr s.heap m)) = some e ∧
      repoId idAttr ev.view.heap e = repoId idAttr s.heap m) ∧
    lookupKey (addOne idAttr s m).1.byId (jsKey (repoId idAttr s.heap m)) = some e := by
  have hem : e ≠ m := by
    intro hem
    rw [hem, hm] at he
    exact Bool.noConfusion he
  have hlk : lookupKey s.byId (jsKey (repoId idAttr s.heap m)) = some e := by
    unfold repoGet at hget
    rw [if_pos hm] at hget
    exact hget
  have hrid : repoId idAttr (replaceObjectProperties s.heap e m) e
      = repoId idAttr s.heap m := by
    unfold repoId
    rw [replaceObjectProperties_get_target hv hem]
  rw [addOne_eq_found idAttr s m e hget]
  refine ⟨?_, ?_⟩
  · intro ev hev
    simp only [List.mem_cons, List.not_mem_nil, or_false] at hev
    rcases hev with rfl | rfl
    · exact ⟨hlk, hrid⟩
    · exact ⟨hlk, hrid⟩
  · dsimp only
    rw [if_pos hm]
    exact lookupKey_setKey_self _ _ _

/-- Witness for C7: a merge that takes an entity from no identity to
identity 1 (reachable after an earlier in-place wipe left a stale byId
entry), with the conclusion at that input. -/
theorem C7_byId_atomic_on_merge_witness :
    ((0 : Nat) < ([[("name", JsVal.str "a")], [("id", JsVal.num 1), ("name", JsVal.str "z")]] : Heap).length) ∧
    repoGet "id" ⟨[[("name", JsVal.str "a")], [("id", JsVal.num 1), ("name", JsVal.str "z")]], [0], [("1", 0)]⟩ 1 = some 0 ∧
    lookupKey (addOne "id" ⟨[[("name", JsVal.str "a")], [("id", JsVal.num 1), ("name", JsVal.str "z")]], [0], [("1", 0)]⟩ 1).1.byId
      (jsKey (repoId "id" [[("name", JsVal.str "a")], [("id", JsVal.num 1), ("name", JsVal.str "z")]] 1)) = some 0 :=
  have h := C7_byId_atomic_on_merge "id"
    ⟨[[("name", JsVal.str "a")], [("id", JsVal.num 1), ("name", JsVal.str "z")]], [0], [("1", 0)]⟩
    1 0 (by decide) (by decide) (by decide) (by decide)
  ⟨by decide, by decide, h.2⟩

/-- C8: on every queue state reachable through the queue's interface, adding
the same item twice leaves exactly one occurrence of it, and draining an
empty queue invokes the task on nothing, producing the empty result list. -/
theorem C8_queue_idempotence (q : List Nat) (x : Nat) (hq : QReach q) :
    (queueAdd (queueAdd q x) x).count x = 1 ∧ queueDrain ([] : List Nat) = [] := by
  refine ⟨?_, by rw [queueDrain]; simp⟩
  have hnd := qreach_nodup hq
  have hle : q.count x ≤ 1 := List.nodup_iff_count_le_one.mp hnd x
  by_cases hx : x ∈ q
  · have h1 : queueAdd q x = q := by unfold queueAdd; rw [if_pos hx]
    rw [h1, h1]
    have hpos : 0 < q.count x := List.count_pos_iff.mpr hx
    omega
  · have h1 : queueAdd q x = q ++ [x] := by unfold queueAdd; rw [if_neg hx]
    have hx2 : x ∈ q ++ [x] := List.mem_append_right _ (List.mem_singleton_self x)
    have h2 : queueAdd (q ++ [x]) x = q ++ [x] := by unfold queueAdd; rw [if_pos hx2]
    rw [h1, h2, List.count_append, List.count_eq_zero.mpr hx]
    simp

/-- Witness for C8 at the empty (reachable) queue. -/
theorem C8_queue_idempotence_witness :
    QReach [] ∧ (queueAdd (queueAdd [] 5) 5).count 5 = 1 ∧
    queueDrain ([] : List Nat) = [] :=
  ⟨⟨[], rfl⟩, C8_queue_idempotence [] 5 ⟨[], rfl⟩⟩

/-- C9: a falsy identity (0 or the empty string) is treated as no identity:
addOne leaves byId untouched, get falls back to the structural scan, fetch
dispatches find-all rather than find-by-id, and destroy removes the entity
locally without a server destroy; the Model-level add also creates no byId
entry. -/
theorem C9_falsy_identity (idAttr : String) (s : RepoState) (a : Nat)
    (t : ModelState) (b : Nat)
    (ha : repoId idAttr s.heap a = JsVal.num 0 ∨ repoId idAttr s.heap a = JsVal.str "")
    (hb : lookupField (heapGet t.heap b) idAttr = JsVal.num 0 ∨
          lookupField (heapGet t.heap b) idAttr = JsVal.str "") :
    (addOne idAttr s a).1.byId = s.byId ∧
    repoGet idAttr s a = repoFind s.heap s.data a ∧
    modelFetch idAttr t.heap (some b) = FetchReq.findAll ∧
    (modelDestroy idAttr t (some b)).2 = DestroyAct.localRemove ∧
    (modelDestroy idAttr t (some b)).1.data = t.data.erase b ∧
    (addModelToLocalData idAttr t b).byId = t.byId := by
  have hta : ¬ (truthy (repoId idAttr s.heap a) = true) := by
    rcases ha with h | h <;> rw [h] <;> exact Bool.false_ne_true
  have htb : ¬ (truthy (lookupField (heapGet t.heap b) idAttr) = true) := by
    rcases hb with h | h <;> rw [h] <;> exact Bool.false_ne_true
  have hdest : modelDestroy idAttr t (some b) =
      (removeModelFromLocalData idAttr t b, DestroyAct.localRemove) := by
    simp only [modelDestroy]
    rw [if_neg htb]
  refine ⟨?_, ?_, ?_, ?_, ?_, ?_⟩
  · cases hf : repoGet idAttr s a with
    | some e =>
      rw [addOne_eq_found idAttr s a e hf]
      dsimp only
      rw [if_neg hta]
    | none =>
      rw [addOne_eq_notfound idAttr s a hf]
      dsimp only
      rw [if_neg hta]
  · unfold repoGet
    rw [if_neg hta]
  · simp only [modelFetch]
    rw [if_neg htb]
  · rw [hdest]
  · rw [hdest]
    unfold removeModelFromLocalData
    by_cases hu : lookupField (heapGet t.heap b) idAttr = JsVal.undefined
    · rw [if_pos hu]
    · rw [if_neg hu]
  · unfold addModelToLocalData
    rw [if_neg htb]

/-- Witness for C9 at a concrete entity whose identity field holds 0. -/
theorem C9_falsy_identity_witness :
    (repoId "id" ([[("id", JsVal.num 0)]] : Heap) 0 = JsVal.num 0 ∨
      repoId "id" ([[("id", JsVal.num 0)]] : Heap) 0 = JsVal.str "") ∧
    modelFetch "id" [[("id", JsVal.num 0)]] (some 0) = FetchReq.findAll ∧
    (modelDestroy "id" ⟨[[("id", JsVal.num 0)]], [0], [], [], []⟩ (some 0)).2
      = DestroyAct.localRemove :=
  have h := C9_falsy_identity "id" ⟨[[("id", JsVal.num 0)]], [0], []⟩ 0
    ⟨[[("id", JsVal.num 0)]], [0], [], [], []⟩ 0 (by decide) (by decide)
  ⟨by decide, h.2.2.1, h.2.2.2.1⟩

/-- C10: the Model-level remove pushes every argument object onto the
destroy queue whether or not it was found locally, and a later no-argument
destroy drains the queue invoking the task on each of them; symmetrically
the Model-level add pushes every argument object onto the save queue even
when reconciliation merged it into an existing entity. -/
theorem C10_unconditional_enqueue (idAttr : String) (s : ModelState)
    (ms : List Nat) (m : Nat) (hm : m ∈ ms) :
    m ∈ (removeModelsFromLocalData idAttr s ms true).destroyQ ∧
    m ∈ queueDrain (removeModelsFromLocalData idAttr s ms true).destroyQ ∧
    (modelDestroy idAttr s none).2 = DestroyAct.runQueue ∧
    m ∈ (addModelsToLocalData idAttr s ms true).saveQ := by
  have h1 : m ∈ (removeModelsFromLocalData idAttr s ms true).destroyQ := by
    unfold removeModelsFromLocalData
    simp only [if_true]
    exact mem_queueAddList hm
  refine ⟨h1, ?_, rfl, ?_⟩
  · rw [queueDrain_eq_reverse, List.mem_reverse]
    exact h1
  · unfold addModelsToLocalData
    simp only [if_true]
    exact mem_queueAddList hm

/-- Witness for C10: an entity that is not found locally (its identity is
truthy but unindexed) still lands in the destroy queue. -/
theorem C10_unconditional_enqueue_witness :
    ((0 : Nat) ∈ ([0] : List Nat)) ∧
    findModelInLocalData "id" ⟨[[("id", JsVal.num 1)]], [], [], [], []⟩ 0 = none ∧
    (0 : Nat) ∈
      (removeModelsFromLocalData "id" ⟨[[("id", JsVal.num 1)]], [], [], [], []⟩ [0] true).destroyQ :=
  have h := C10_unconditional_enqueue "id" ⟨[[("id", JsVal.num 1)]], [], [], [], []⟩ [0] 0
    (by decide)
  ⟨by decide, by decide, h.1⟩

end FrontendModel
